import Mathlib

/-!
Verification of the native `java.lang.StrictMath` binding layer
(`src/luni/src/main/native/java_lang_StrictMath.c`).

The file embeds the one routine of the layer with algorithmic content, the
single-precision next-representable-float routine `jnextafterf`, as a function
on raw 32-bit IEEE-754 binary32 patterns (naturals below `2^32`), exactly as
the C code manipulates them: the two float arguments are reinterpreted as
32-bit two's-complement integers (`jint`), a zero-magnitude start is special
cased, and otherwise the pattern is incremented or decremented modulo `2^32`
according to the signed-comparison test `(hx > 0) ^ (hx > hy)`.

The numeric reading of a pattern is given by `fval` (the textbook binary32
value, as a rational), and the IEEE comparison order on non-NaN patterns by
`floatLt`.  The integer scale `fkey` (the value times `2^149`, with the
infinities beyond every finite magnitude) and the order position `nOrd` mediate
between patterns and values; `floatLt_iff_nOrd` is the bridge used throughout.

The remaining functions of the C file are one-line delegations to the external
fdlibm library; they are embedded as wrappers over an abstract function
parameter (`jsin` etc.).
-/

namespace StrictMath

/-- Two's-complement signed reading of a 32-bit pattern (a C `jint`). -/
def toSigned (b : Nat) : Int :=
  if b < 0x80000000 then (b : Int) else (b : Int) - 0x100000000

/-- The branch test `(hx > 0) ^ (hx > hy)` from `jnextafterf`. -/
def nextafterfTest (bx hy : Nat) : Bool :=
  xor (decide (toSigned bx > 0)) (decide (toSigned bx > toSigned hy))

/-- Shallow embedding of `jnextafterf` from `java_lang_StrictMath.c`, on raw
32-bit patterns.  The C code reinterprets both float arguments as `jint` and
works on the bit patterns; increment and decrement wrap modulo `2^32`. -/
def jnextafterf (bx hy : Nat) : Nat :=
  if bx &&& 0x7fffffff = 0 then (hy &&& 0x80000000) ||| 1
  else if nextafterfTest bx hy then (bx + 1) % 0x100000000
  else (bx - 1) % 0x100000000

/-- Sign bit of a 32-bit pattern. -/
def signBit (b : Nat) : Nat := b / 0x80000000

/-- Magnitude (sign-stripped) bits of a 32-bit pattern. -/
def magBits (b : Nat) : Nat := b % 0x80000000

/-- Biased-exponent field (8 bits). -/
def expBits (b : Nat) : Nat := b % 0x80000000 / 0x800000

/-- Mantissa field (23 bits). -/
def manBits (b : Nat) : Nat := b % 0x800000

/-- The pattern encodes a NaN: all-ones exponent, nonzero mantissa. -/
def isNan (b : Nat) : Prop := expBits b = 255 ∧ manBits b ≠ 0

/-- The pattern encodes a finite value (zero, subnormal or normal). -/
def isFinite (b : Nat) : Prop := expBits b ≠ 255

/-- The pattern encodes an infinity: all-ones exponent, zero mantissa. -/
def isInf (b : Nat) : Prop := expBits b = 255 ∧ manBits b = 0

instance (b : Nat) : Decidable (isNan b) :=
  inferInstanceAs (Decidable (expBits b = 255 ∧ manBits b ≠ 0))

instance (b : Nat) : Decidable (isFinite b) :=
  inferInstanceAs (Decidable (expBits b ≠ 255))

instance (b : Nat) : Decidable (isInf b) :=
  inferInstanceAs (Decidable (expBits b = 255 ∧ manBits b = 0))

/-- IEEE-754 binary32 value of a finite pattern, as a rational: sign times
`2^(e-127) * (1 + m/2^23)` for a normal, sign times `2^(-126) * (m/2^23)` for
a zero or subnormal. -/
def fval (b : Nat) : ℚ :=
  (if b < 0x80000000 then 1 else -1) *
    (if expBits b = 0
      then (manBits b : ℚ) / 2 ^ 23 * (2 : ℚ) ^ (-(126 : ℤ))
      else (1 + (manBits b : ℚ) / 2 ^ 23) * (2 : ℚ) ^ ((expBits b : ℤ) - 127))

/-- Scaled integer magnitude of a magnitude pattern `m < 2^31`: the absolute
value of the encoded float times `2^149`. -/
def mag (m : Nat) : Nat :=
  if m / 0x800000 = 0 then m % 0x800000
  else (0x800000 + m % 0x800000) * 2 ^ (m / 0x800000 - 1)

/-- Signed scaled value of a pattern: the value times `2^149`, as an integer;
the infinity patterns get `±2^277`, beyond every finite magnitude. -/
def fkey (b : Nat) : Int :=
  if b < 0x80000000 then (mag b : Int) else -(mag (b - 0x80000000) : Int)

/-- Position of a pattern along the numeric order: non-negative patterns in
ascending order, negative ones in descending order, the two zeros both at 0. -/
def nOrd (b : Nat) : Int :=
  if b < 0x80000000 then (b : Int) else 0x80000000 - (b : Int)

/-- Numeric (IEEE) strict order on patterns; false whenever either is NaN. -/
def floatLt (a b : Nat) : Prop :=
  ¬isNan a ∧ ¬isNan b ∧
    ((isInf a ∧ signBit a = 1 ∧ ¬(isInf b ∧ signBit b = 1)) ∨
     (isFinite a ∧ isInf b ∧ signBit b = 0) ∨
     (isFinite a ∧ isFinite b ∧ fval a < fval b))

instance (a b : Nat) : Decidable (floatLt a b) := by
  unfold floatLt
  infer_instance

/-- Sign-bit flip of a 32-bit pattern: the float negation `-x`. -/
def flipSign (b : Nat) : Nat :=
  if b < 0x80000000 then b + 0x80000000 else b - 0x80000000

/-- One upward step: `nextafterf` toward positive infinity. -/
def stepUp (b : Nat) : Nat := jnextafterf b 0x7F800000

/-- `jsin` delegates to the external `ieee_sin`. -/
def jsin {D : Type} (ieee_sin : D → D) (a : D) : D := ieee_sin a

/-- `jcos` delegates to the external `ieee_cos`. -/
def jcos {D : Type} (ieee_cos : D → D) (a : D) : D := ieee_cos a

/-- `jtan` delegates to the external `ieee_tan`. -/
def jtan {D : Type} (ieee_tan : D → D) (a : D) : D := ieee_tan a

/-- `jasin` delegates to the external `ieee_asin`. -/
def jasin {D : Type} (ieee_asin : D → D) (a : D) : D := ieee_asin a

/-- `jacos` delegates to the external `ieee_acos`. -/
def jacos {D : Type} (ieee_acos : D → D) (a : D) : D := ieee_acos a

/-- `jatan` delegates to the external `ieee_atan`. -/
def jatan {D : Type} (ieee_atan : D → D) (a : D) : D := ieee_atan a

/-- `jexp` delegates to the external `ieee_exp`. -/
def jexp {D : Type} (ieee_exp : D → D) (a : D) : D := ieee_exp a

/-- `jlog` delegates to the external `ieee_log`. -/
def jlog {D : Type} (ieee_log : D → D) (a : D) : D := ieee_log a

/-- `jsqrt2` delegates to the external `ieee_sqrt`. -/
def jsqrt2 {D : Type} (ieee_sqrt : D → D) (a : D) : D := ieee_sqrt a

/-- `jieee_remainder` delegates to the external `ieee_remainder`. -/
def jieee_remainder {D : Type} (ieee_remainder : D → D → D) (a b : D) : D :=
  ieee_remainder a b

/-- `jfloor` delegates to the external `ieee_floor`. -/
def jfloor {D : Type} (ieee_floor : D → D) (a : D) : D := ieee_floor a

/-- `jceil` delegates to the external `ieee_ceil`. -/
def jceil {D : Type} (ieee_ceil : D → D) (a : D) : D := ieee_ceil a

/-- `jrint` delegates to the external `ieee_rint`. -/
def jrint {D : Type} (ieee_rint : D → D) (a : D) : D := ieee_rint a

/-- `jatan2` delegates to the external `ieee_atan2`. -/
def jatan2 {D : Type} (ieee_atan2 : D → D → D) (a b : D) : D := ieee_atan2 a b

/-- `jpow` delegates to the external `ieee_pow`. -/
def jpow {D : Type} (ieee_pow : D → D → D) (a b : D) : D := ieee_pow a b

/-- `jsinh` delegates to the external `ieee_sinh`. -/
def jsinh {D : Type} (ieee_sinh : D → D) (a : D) : D := ieee_sinh a

/-- `jtanh` delegates to the external `ieee_tanh`. -/
def jtanh {D : Type} (ieee_tanh : D → D) (a : D) : D := ieee_tanh a

/-- `jcosh` delegates to the external `ieee_cosh`. -/
def jcosh {D : Type} (ieee_cosh : D → D) (a : D) : D := ieee_cosh a

/-- `jlog10` delegates to the external `ieee_log10`. -/
def jlog10 {D : Type} (ieee_log10 : D → D) (a : D) : D := ieee_log10 a

/-- `jcbrt` delegates to the external `ieee_cbrt`. -/
def jcbrt {D : Type} (ieee_cbrt : D → D) (a : D) : D := ieee_cbrt a

/-- `jexpm1` delegates to the external `ieee_expm1`. -/
def jexpm1 {D : Type} (ieee_expm1 : D → D) (a : D) : D := ieee_expm1 a

/-- `jhypot` delegates to the external `ieee_hypot`. -/
def jhypot {D : Type} (ieee_hypot : D → D → D) (a b : D) : D := ieee_hypot a b

/-- `jlog1p` delegates to the external `ieee_log1p`. -/
def jlog1p {D : Type} (ieee_log1p : D → D) (a : D) : D := ieee_log1p a

/-- `jnextafter` (double precision) delegates to the external
`ieee_nextafter`. -/
def jnextafter {D : Type} (ieee_nextafter : D → D → D) (a b : D) : D :=
  ieee_nextafter a b

end StrictMath

namespace StrictMath

lemma toSigned_of_lt {b : Nat} (h : b < 0x80000000) : toSigned b = (b : Int) :=
  if_pos h

lemma toSigned_of_ge {b : Nat} (h : 0x80000000 ≤ b) :
    toSigned b = (b : Int) - 0x100000000 :=
  if_neg (by omega)

lemma and_mask31 (b : Nat) : b &&& 0x7fffffff = b % 0x80000000 := by
  have h := Nat.and_pow_two_sub_one_eq_mod b 31
  norm_num at h
  exact h

lemma and_sign {b : Nat} (hb : b < 0x100000000) :
    b &&& 0x80000000 = if b < 0x80000000 then 0 else 0x80000000 := by
  have h : b &&& 0x80000000 = (Nat.testBit b 31).toNat * 0x80000000 := by
    have h2 := Nat.and_two_pow b 31
    norm_num at h2
    exact h2
  rw [h, Nat.testBit_to_div_mod]
  by_cases hlt : b < 0x80000000
  · have hd : b / 2 ^ 31 % 2 = 0 := by norm_num; omega
    rw [hd]
    norm_num [hlt]
  · have hd : b / 2 ^ 31 % 2 = 1 := by norm_num; omega
    rw [hd]
    norm_num [hlt]

/-- Arithmetic characterization of `jnextafterf` for in-range patterns. -/
lemma jnextafterf_eq {bx hy : Nat} (hbx : bx < 0x100000000) (hhy : hy < 0x100000000) :
    jnextafterf bx hy =
      if bx % 0x80000000 = 0 then (if hy < 0x80000000 then 1 else 0x80000001)
      else if nextafterfTest bx hy then (bx + 1) % 0x100000000
      else bx - 1 := by
  unfold jnextafterf
  rw [and_mask31, and_sign hhy]
  by_cases h0 : bx % 0x80000000 = 0
  · rw [if_pos h0, if_pos h0]
    by_cases hs : hy < 0x80000000
    · rw [if_pos hs, if_pos hs]; decide
    · rw [if_neg hs, if_neg hs]; decide
  · rw [if_neg h0, if_neg h0]
    by_cases ht : nextafterfTest bx hy
    · rw [if_pos ht, if_pos ht]
    · rw [if_neg ht, if_neg ht, Nat.mod_eq_of_lt (by omega)]

lemma mag_zero : mag 0 = 0 := rfl

lemma mag_pos {m : Nat} (hm : 0 < m) : 0 < mag m := by
  unfold mag
  by_cases h : m / 0x800000 = 0
  · rw [if_pos h]; omega
  · rw [if_neg h]
    exact Nat.mul_pos (by omega) (Nat.pos_pow_of_pos _ (by omega))

lemma mag_lt_hi (a : Nat) : mag a < 0x800000 * 2 ^ (a / 0x800000) := by
  unfold mag
  by_cases h : a / 0x800000 = 0
  · rw [if_pos h, h, pow_zero, mul_one]; omega
  · rw [if_neg h]
    obtain ⟨d, hd⟩ : ∃ d, a / 0x800000 = d + 1 := ⟨a / 0x800000 - 1, by omega⟩
    rw [hd]
    simp only [Nat.add_sub_cancel]
    calc (0x800000 + a % 0x800000) * 2 ^ d
        < 0x1000000 * 2 ^ d :=
          (Nat.mul_lt_mul_right (Nat.pos_pow_of_pos _ (by omega))).mpr (by omega)
      _ = 0x800000 * 2 ^ (d + 1) := by rw [pow_succ]; ring

lemma hi_le_mag {b : Nat} (h : 0 < b / 0x800000) :
    0x800000 * 2 ^ (b / 0x800000 - 1) ≤ mag b := by
  unfold mag
  rw [if_neg (by omega)]
  exact Nat.mul_le_mul_right _ (by omega)

lemma mag_lt_mag {a b : Nat} (hab : a < b) : mag a < mag b := by
  have hdiv : a / 0x800000 ≤ b / 0x800000 := Nat.div_le_div_right hab.le
  rcases Nat.lt_or_ge (a / 0x800000) (b / 0x800000) with hlt | hge
  · have h1 := mag_lt_hi a
    have h2 := hi_le_mag (b := b) (by omega)
    have h3 : 0x800000 * 2 ^ (a / 0x800000) ≤ 0x800000 * 2 ^ (b / 0x800000 - 1) :=
      Nat.mul_le_mul_left _ (Nat.pow_le_pow_right (by omega) (by omega))
    omega
  · have heq : a / 0x800000 = b / 0x800000 := by omega
    have hm : a % 0x800000 < b % 0x800000 := by omega
    unfold mag
    rw [heq]
    by_cases h : b / 0x800000 = 0
    · rw [if_pos h, if_pos h]; omega
    · rw [if_neg h, if_neg h]
      exact (Nat.mul_lt_mul_right (Nat.pos_pow_of_pos _ (by omega))).mpr (by omega)

lemma mag_lt_iff {a b : Nat} : mag a < mag b ↔ a < b := by
  constructor
  · intro h
    by_contra hc
    rcases Nat.lt_or_ge b a with h2 | h2
    · exact absurd (mag_lt_mag h2) (by omega)
    · have : a = b := by omega
      subst this; omega
  · exact mag_lt_mag

lemma mag_eq_zero_iff {m : Nat} : mag m = 0 ↔ m = 0 := by
  constructor
  · intro h
    by_contra hc
    have h2 : 0 < mag m := mag_pos (Nat.pos_of_ne_zero hc)
    omega
  · intro h; subst h; rfl

lemma inf_pos_eq {c : Nat} (_hc : c < 0x100000000) (hi : isInf c) (hs : signBit c = 0) :
    c = 0x7F800000 := by
  unfold isInf expBits manBits at hi
  unfold signBit at hs
  omega

lemma inf_neg_eq {c : Nat} (_hc : c < 0x100000000) (hi : isInf c) (hs : signBit c = 1) :
    c = 0xFF800000 := by
  unfold isInf expBits manBits at hi
  unfold signBit at hs
  omega

lemma not_nan_cases {c : Nat} (hc : c < 0x100000000) (hn : ¬isNan c) :
    isFinite c ∨ c = 0x7F800000 ∨ c = 0xFF800000 := by
  unfold isNan isFinite expBits manBits at *
  omega

lemma isFinite_not_nan {c : Nat} (hf : isFinite c) : ¬isNan c := fun hn => hf hn.1

lemma fval_eq_fkey {b : Nat} (hb : b < 0x100000000) :
    fval b = (fkey b : ℚ) / 2 ^ 149 := by
  have key : ∀ m : Nat,
      (if m / 0x800000 = 0
        then ((m % 0x800000 : Nat) : ℚ) / 2 ^ 23 * (2 : ℚ) ^ (-(126 : ℤ))
        else (1 + ((m % 0x800000 : Nat) : ℚ) / 2 ^ 23) *
          (2 : ℚ) ^ (((m / 0x800000 : Nat) : ℤ) - 127))
      = ((mag m : Nat) : ℚ) / 2 ^ 149 := by
    intro m
    by_cases h : m / 0x800000 = 0
    · rw [if_pos h]
      unfold mag
      rw [if_pos h]
      have h26 : (2 : ℚ) ^ (-(126 : ℤ)) = 1 / 2 ^ 126 := by
        rw [zpow_neg, one_div]
        norm_num
      rw [h26, div_mul_div_comm, mul_one, ← pow_add]
    · rw [if_neg h]
      unfold mag
      rw [if_neg h]
      have h1e : 1 ≤ m / 0x800000 := by omega
      have he : ((m / 0x800000 : Nat) : ℤ) - 127 = ((m / 0x800000 - 1 : Nat) : ℤ) - 126 := by
        omega
      rw [he, zpow_sub₀ (two_ne_zero), zpow_natCast]
      have hsplit : (1 : ℚ) + ((m % 0x800000 : Nat) : ℚ) / 2 ^ 23 =
          ((8388608 : ℚ) + ((m % 0x800000 : Nat) : ℚ)) / 2 ^ 23 := by
        rw [add_div]
        norm_num
      rw [hsplit]
      push_cast
      rw [div_mul_div_comm]
      norm_num
  unfold fval fkey expBits manBits
  by_cases hbs : b < 0x80000000
  · have h1 : b % 0x80000000 = b := Nat.mod_eq_of_lt hbs
    rw [if_pos hbs, if_pos hbs, h1, one_mul, key b]
    push_cast
    ring
  · have h1 : b % 0x80000000 = b - 0x80000000 := by omega
    have h2 : b % 0x800000 = (b - 0x80000000) % 0x800000 := by omega
    rw [if_neg hbs, if_neg hbs, h1, h2, key (b - 0x80000000)]
    push_cast
    ring

lemma fkey_lt_iff_nOrd {a b : Nat} (ha : a < 0x100000000) (hb : b < 0x100000000) :
    fkey a < fkey b ↔ nOrd a < nOrd b := by
  unfold fkey nOrd
  by_cases h1 : a < 0x80000000 <;> by_cases h2 : b < 0x80000000
  · rw [if_pos h1, if_pos h1, if_pos h2, if_pos h2]
    have := mag_lt_iff (a := a) (b := b)
    omega
  · rw [if_pos h1, if_pos h1, if_neg h2, if_neg h2]
    have hia := mag_eq_zero_iff (m := b - 0x80000000)
    have hib := mag_eq_zero_iff (m := a)
    omega
  · rw [if_neg h1, if_neg h1, if_pos h2, if_pos h2]
    have hia := mag_eq_zero_iff (m := a - 0x80000000)
    have hib := mag_eq_zero_iff (m := b)
    omega
  · rw [if_neg h1, if_neg h1, if_neg h2, if_neg h2]
    have := mag_lt_iff (a := b - 0x80000000) (b := a - 0x80000000)
    omega

lemma fkey_posInf : fkey 0x7F800000 = (mag 0x7F800000 : ℤ) := by
  unfold fkey
  rw [if_pos (by norm_num)]

lemma fkey_negInf : fkey 0xFF800000 = -(mag 0x7F800000 : ℤ) := by
  unfold fkey
  rw [if_neg (by norm_num)]

lemma fkey_finite_bounds {c : Nat} (hc : c < 0x100000000) (hf : isFinite c) :
    -(mag 0x7F800000 : ℤ) < fkey c ∧ fkey c < (mag 0x7F800000 : ℤ) := by
  unfold isFinite expBits at hf
  unfold fkey
  by_cases h1 : c < 0x80000000
  · have hmag := mag_lt_mag (a := c) (b := 0x7F800000) (by omega)
    rw [if_pos h1]
    omega
  · have hmag := mag_lt_mag (a := c - 0x80000000) (b := 0x7F800000) (by omega)
    rw [if_neg h1]
    omega

lemma floatLt_iff_fkey {a b : Nat} (ha : a < 0x100000000) (hb : b < 0x100000000) :
    floatLt a b ↔ ¬isNan a ∧ ¬isNan b ∧ fkey a < fkey b := by
  constructor
  · rintro ⟨hna, hnb, hcase⟩
    refine ⟨hna, hnb, ?_⟩
    rcases hcase with ⟨hia, hsa, hnegb⟩ | ⟨hfa, hib, hsb⟩ | ⟨hfa, hfb, hv⟩
    · have hae : a = 0xFF800000 := inf_neg_eq ha hia hsa
      subst hae
      rw [fkey_negInf]
      rcases not_nan_cases hb hnb with hfb | h7 | hF
      · exact (fkey_finite_bounds hb hfb).1
      · subst h7
        rw [fkey_posInf]
        have := mag_pos (m := 0x7F800000) (by norm_num)
        omega
      · subst hF
        exact absurd ⟨by decide, by decide⟩ hnegb
    · have hbe : b = 0x7F800000 := inf_pos_eq hb hib hsb
      subst hbe
      rw [fkey_posInf]
      exact (fkey_finite_bounds ha hfa).2
    · have h1 := fval_eq_fkey ha
      have h2 := fval_eq_fkey hb
      rw [h1, h2] at hv
      have h3 := (div_lt_div_iff_of_pos_right (by positivity : (0:ℚ) < 2 ^ 149)).mp hv
      exact_mod_cast h3
  · rintro ⟨hna, hnb, hk⟩
    refine ⟨hna, hnb, ?_⟩
    rcases not_nan_cases ha hna with hfa | h7a | hFa
    · rcases not_nan_cases hb hnb with hfb | h7b | hFb
      · refine Or.inr (Or.inr ⟨hfa, hfb, ?_⟩)
        rw [fval_eq_fkey ha, fval_eq_fkey hb]
        refine (div_lt_div_iff_of_pos_right (by positivity : (0:ℚ) < 2 ^ 149)).mpr ?_
        exact_mod_cast hk
      · subst h7b
        exact Or.inr (Or.inl ⟨hfa, by decide, by decide⟩)
      · subst hFb
        rw [fkey_negInf] at hk
        have := (fkey_finite_bounds ha hfa).1
        omega
    · subst h7a
      rw [fkey_posInf] at hk
      rcases not_nan_cases hb hnb with hfb | h7b | hFb
      · have := (fkey_finite_bounds hb hfb).2
        omega
      · subst h7b
        rw [fkey_posInf] at hk
        omega
      · subst hFb
        rw [fkey_negInf] at hk
        have := mag_pos (m := 0x7F800000) (by norm_num)
        omega
    · subst hFa
      refine Or.inl ⟨by decide, by decide, ?_⟩
      rintro ⟨hib, hsb⟩
      have hbe : b = 0xFF800000 := inf_neg_eq hb hib hsb
      subst hbe
      rw [fkey_negInf] at hk
      omega

lemma floatLt_iff_nOrd {a b : Nat} (ha : a < 0x100000000) (hb : b < 0x100000000) :
    floatLt a b ↔ ¬isNan a ∧ ¬isNan b ∧ nOrd a < nOrd b := by
  rw [floatLt_iff_fkey ha hb, fkey_lt_iff_nOrd ha hb]

lemma test_eval (bx hy : Nat) :
    nextafterfTest bx hy =
      xor (decide (0 < toSigned bx)) (decide (toSigned hy < toSigned bx)) := by
  unfold nextafterfTest
  simp only [gt_iff_lt]

lemma nOrd_bounds {c : Nat} (hc : c < 0x100000000) (hf : isFinite c) :
    -0x7F800000 < nOrd c ∧ nOrd c < 0x7F800000 := by
  unfold isFinite expBits at hf
  unfold nOrd
  by_cases h1 : c < 0x80000000
  · rw [if_pos h1]
    omega
  · rw [if_neg h1]
    omega

lemma nOrd_eq_K {c : Nat} (hc : c < 0x100000000) (hK : nOrd c = 0x7F800000) :
    c = 0x7F800000 := by
  unfold nOrd at hK
  split at hK <;> omega

lemma finite_of_nOrd {c : Nat} (hc : c < 0x100000000) (hn : ¬isNan c)
    (h1 : -0x7F800000 < nOrd c) (h2 : nOrd c < 0x7F800000) : isFinite c := by
  rcases not_nan_cases hc hn with hf | h7 | hF
  · exact hf
  · subst h7
    norm_num [nOrd] at h2
  · subst hF
    norm_num [nOrd] at h1

lemma step_lemma {bx hy : Nat} (hbx : bx < 0x100000000) (hhy : hy < 0x100000000)
    (hfin : isFinite bx) (hlt : floatLt bx hy) (hside : 0x80000000 ≤ bx → hy < 0x80000000) :
    jnextafterf bx hy < 0x100000000 ∧ ¬isNan (jnextafterf bx hy) ∧
      nOrd (jnextafterf bx hy) = nOrd bx + 1 := by
  obtain ⟨hna, hnb, hk⟩ := (floatLt_iff_fkey hbx hhy).mp hlt
  rw [jnextafterf_eq hbx hhy]
  by_cases h0 : bx % 0x80000000 = 0
  · rw [if_pos h0]
    have hkx : fkey bx = 0 := by
      unfold fkey
      by_cases h1 : bx < 0x80000000
      · rw [if_pos h1]
        have hz : bx = 0 := by omega
        rw [hz, mag_zero]
        rfl
      · rw [if_neg h1]
        have hz : bx - 0x80000000 = 0 := by omega
        rw [hz, mag_zero]
        rfl
    have hky : 0 < fkey hy := by omega
    have hys : hy < 0x80000000 := by
      by_contra hc
      unfold fkey at hky
      rw [if_neg hc] at hky
      have h3 : (0:ℤ) ≤ (mag (hy - 0x80000000) : ℤ) := Int.ofNat_nonneg _
      omega
    rw [if_pos hys]
    refine ⟨by norm_num, by decide, ?_⟩
    have h1 : nOrd 1 = 1 := by norm_num [nOrd]
    have h2 : nOrd bx = 0 := by
      unfold nOrd
      split <;> omega
    omega
  · rw [if_neg h0]
    by_cases h1 : bx < 0x80000000
    · have hbpos : 0 < bx := by omega
      have hkx : fkey bx = (mag bx : ℤ) := by
        unfold fkey
        rw [if_pos h1]
      have hys : hy < 0x80000000 := by
        by_contra hc
        unfold fkey at hk
        rw [if_pos h1, if_neg hc] at hk
        have h3 : (0:ℤ) ≤ (mag (hy - 0x80000000) : ℤ) := Int.ofNat_nonneg _
        have h4 : (0:ℤ) ≤ (mag bx : ℤ) := Int.ofNat_nonneg _
        omega
      have hky : fkey hy = (mag hy : ℤ) := by
        unfold fkey
        rw [if_pos hys]
      have hxy : bx < hy := by
        rw [hkx, hky] at hk
        exact mag_lt_iff.mp (by exact_mod_cast hk)
      have htest : nextafterfTest bx hy = true := by
        rw [test_eval, toSigned_of_lt h1, toSigned_of_lt hys]
        have d1 : (0:ℤ) < (bx:ℤ) := by exact_mod_cast hbpos
        have d2 : ¬((hy:ℤ) < (bx:ℤ)) := by
          rw [not_lt]
          exact_mod_cast hxy.le
        rw [decide_eq_true d1, decide_eq_false d2]
        rfl
      rw [if_pos htest, Nat.mod_eq_of_lt (by omega)]
      refine ⟨by omega, ?_, ?_⟩
      · intro hnan
        apply hnb
        unfold isNan expBits manBits at hnan ⊢
        omega
      · unfold nOrd
        rw [if_pos (by omega), if_pos h1]
        push_cast
        ring
    · have hbgt : 0x80000000 < bx := by omega
      have hys : hy < 0x80000000 := hside (by omega)
      have htest : nextafterfTest bx hy = false := by
        rw [test_eval, toSigned_of_ge (by omega), toSigned_of_lt hys]
        have d1 : ¬(0 < (bx:ℤ) - 0x100000000) := by omega
        have d2 : ¬((hy:ℤ) < (bx:ℤ) - 0x100000000) := by omega
        rw [decide_eq_false d1, decide_eq_false d2]
        rfl
      rw [if_neg (by simp [htest])]
      refine ⟨by omega, ?_, ?_⟩
      · unfold isFinite expBits at hfin
        intro hnan
        unfold isNan expBits manBits at hnan
        omega
      · unfold nOrd
        rw [if_neg (by omega), if_neg (by omega)]
        omega

lemma nextafterf_succ {bx hy : Nat} (hbx : bx < 0x100000000) (hhy : hy < 0x100000000)
    (hfin : isFinite bx) (hlt : floatLt bx hy) (hside : 0x80000000 ≤ bx → hy < 0x80000000) :
    floatLt bx (jnextafterf bx hy) ∧
      ∀ z, z < 0x100000000 → ¬isNan z →
        ¬(floatLt bx z ∧ floatLt z (jnextafterf bx hy)) := by
  obtain ⟨hr1, hr2, hr3⟩ := step_lemma hbx hhy hfin hlt hside
  have hna : ¬isNan bx := isFinite_not_nan hfin
  constructor
  · exact (floatLt_iff_nOrd hbx hr1).mpr ⟨hna, hr2, by omega⟩
  · rintro z hz hnz ⟨hl1, hl2⟩
    have p1 := (floatLt_iff_nOrd hbx hz).mp hl1
    have p2 := (floatLt_iff_nOrd hz hr1).mp hl2
    omega

lemma floatLt_posInf {c : Nat} (_hc : c < 0x100000000) (hf : isFinite c) :
    floatLt c 0x7F800000 := by
  unfold floatLt
  exact ⟨isFinite_not_nan hf, by decide, Or.inr (Or.inl ⟨hf, by decide, by decide⟩)⟩

lemma climb : ∀ d x, x < 0x100000000 → isFinite x →
    ((0x7F800000 : ℤ) - nOrd x).toNat = d → stepUp^[d] x = 0x7F800000 := by
  intro d
  induction d with
  | zero =>
    intro x hx hf hd
    have hb := nOrd_bounds hx hf
    omega
  | succ d ih =>
    intro x hx hf hd
    have hb := nOrd_bounds hx hf
    have hs : stepUp x = jnextafterf x 0x7F800000 := rfl
    obtain ⟨hr1, hr2, hr3⟩ :=
      step_lemma hx (by norm_num) hf (floatLt_posInf hx hf) (fun _ => by norm_num)
    rw [← hs] at hr1 hr2 hr3
    rw [Function.iterate_succ_apply]
    by_cases hK : nOrd (stepUp x) = 0x7F800000
    · have hxe : stepUp x = 0x7F800000 := nOrd_eq_K hr1 hK
      have hd0 : d = 0 := by omega
      subst hd0
      rw [Function.iterate_zero_apply]
      exact hxe
    · have hfr : isFinite (stepUp x) := by
        apply finite_of_nOrd hr1 hr2 <;> omega
      exact ih (stepUp x) hr1 hfr (by omega)

lemma nextafterf_flip {x y : Nat} (hx : x < 0x100000000) (hy : y < 0x100000000)
    (hmx : magBits x ≠ 0) (hmy : magBits y ≠ 0) (hsxy : signBit x ≠ signBit y) :
    jnextafterf (flipSign x) (flipSign y) = flipSign (jnextafterf x y) := by
  unfold magBits at hmx hmy
  unfold signBit at hsxy
  unfold flipSign
  by_cases h1 : x < 0x80000000
  · have hy1 : ¬(y < 0x80000000) := by omega
    rw [if_pos h1, if_neg hy1]
    have hx0 : 0 < x := by omega
    have ht1 : nextafterfTest x y = false := by
      rw [test_eval, toSigned_of_lt h1, toSigned_of_ge (by omega)]
      have d1 : (0:ℤ) < (x:ℤ) := by exact_mod_cast hx0
      have d2 : (y:ℤ) - 0x100000000 < (x:ℤ) := by omega
      rw [decide_eq_true d1, decide_eq_true d2]
      rfl
    have he1 : jnextafterf x y = x - 1 := by
      rw [jnextafterf_eq hx hy, if_neg (by omega), if_neg (by simp [ht1])]
    have ht2 : nextafterfTest (x + 0x80000000) (y - 0x80000000) = false := by
      rw [test_eval, toSigned_of_ge (by omega), toSigned_of_lt (by omega)]
      have d1 : ¬((0:ℤ) < ((x + 0x80000000 : Nat) : ℤ) - 0x100000000) := by omega
      have d2 : ¬(((y - 0x80000000 : Nat) : ℤ) <
          ((x + 0x80000000 : Nat) : ℤ) - 0x100000000) := by omega
      rw [decide_eq_false d1, decide_eq_false d2]
      rfl
    have he2 : jnextafterf (x + 0x80000000) (y - 0x80000000) = x + 0x80000000 - 1 := by
      rw [jnextafterf_eq (by omega) (by omega), if_neg (by omega), if_neg (by simp [ht2])]
    rw [he1, he2, if_pos (by omega)]
    omega
  · have hy1 : y < 0x80000000 := by omega
    rw [if_neg h1, if_pos hy1]
    have hxg : 0x80000000 < x := by omega
    have ht1 : nextafterfTest x y = false := by
      rw [test_eval, toSigned_of_ge (by omega), toSigned_of_lt hy1]
      have d1 : ¬((0:ℤ) < (x:ℤ) - 0x100000000) := by omega
      have d2 : ¬((y:ℤ) < (x:ℤ) - 0x100000000) := by omega
      rw [decide_eq_false d1, decide_eq_false d2]
      rfl
    have he1 : jnextafterf x y = x - 1 := by
      rw [jnextafterf_eq hx hy, if_neg (by omega), if_neg (by simp [ht1])]
    have ht2 : nextafterfTest (x - 0x80000000) (y + 0x80000000) = false := by
      rw [test_eval, toSigned_of_lt (by omega), toSigned_of_ge (by omega)]
      have d1 : (0:ℤ) < ((x - 0x80000000 : Nat) : ℤ) := by omega
      have d2 : ((y + 0x80000000 : Nat) : ℤ) - 0x100000000 <
          ((x - 0x80000000 : Nat) : ℤ) := by omega
      rw [decide_eq_true d1, decide_eq_true d2]
      rfl
    have he2 : jnextafterf (x - 0x80000000) (y + 0x80000000) = x - 0x80000000 - 1 := by
      rw [jnextafterf_eq (by omega) (by omega), if_neg (by omega), if_neg (by simp [ht2])]
    rw [he1, he2, if_neg (by omega)]
    omega

/-- C1 counterexample: at start `-1.0f` (0xBF800000) and direction `-0.5f`
(0xBF000000) we have direction > start and start finite, yet the result of
`jnextafterf` is NOT strictly greater than start — it is strictly smaller. -/
theorem C1_counterexample :
    isFinite 0xBF800000 ∧ floatLt 0xBF800000 0xBF000000 ∧
      ¬floatLt 0xBF800000 (jnextafterf 0xBF800000 0xBF000000) ∧
      floatLt (jnextafterf 0xBF800000 0xBF000000) 0xBF800000 := by
  have h1 : jnextafterf 0xBF800000 0xBF000000 = 0xBF800001 := by decide
  refine ⟨by decide, ?_, ?_, ?_⟩
  · exact (floatLt_iff_nOrd (by norm_num) (by norm_num)).mpr (by decide)
  · rw [h1]
    intro h
    have h2 := (floatLt_iff_nOrd (by norm_num) (by norm_num)).mp h
    revert h2
    decide
  · rw [h1]
    exact (floatLt_iff_nOrd (by norm_num) (by norm_num)).mpr (by decide)

/-- C1 (amended): for every finite float32 `x` and float32 `y` with `y > x`
numerically, provided `x` and `y` do not both carry a set sign bit, the result
of `jnextafterf x y` is strictly greater than `x` and no representable
(non-NaN) float32 lies strictly between `x` and the result. -/
theorem C1_theorem :
    ∀ x y, x < 0x100000000 → y < 0x100000000 → isFinite x → floatLt x y →
      ¬(0x80000000 ≤ x ∧ 0x80000000 ≤ y) →
      floatLt x (jnextafterf x y) ∧
        ∀ z, z < 0x100000000 → ¬isNan z →
          ¬(floatLt x z ∧ floatLt z (jnextafterf x y)) := by
  intro x y hx hy hf hlt hside
  exact nextafterf_succ hx hy hf hlt (fun h => by omega)

/-- C1 witness: the amended claim instantiated at start `1.0f`, direction
`2.0f`. -/
theorem C1_witness :
    floatLt 0x3F800000 (jnextafterf 0x3F800000 0x40000000) ∧
      ∀ z, z < 0x100000000 → ¬isNan z →
        ¬(floatLt 0x3F800000 z ∧ floatLt z (jnextafterf 0x3F800000 0x40000000)) :=
  C1_theorem 0x3F800000 0x40000000 (by norm_num) (by norm_num) (by decide)
    ((floatLt_iff_nOrd (by norm_num) (by norm_num)).mpr (by decide)) (by decide)

/-- C2: the code has no `start == direction` special case outside zero: at
`start = direction = 1.0f` (0x3F800000) it returns the incremented pattern
0x3F800001, not the direction; even at `start = direction = +0.0` it returns
the smallest subnormal 1, not the direction 0. -/
theorem C2_code_eval :
    jnextafterf 0x3F800000 0x3F800000 = 0x3F800001 ∧
      jnextafterf 0x3F800000 0x3F800000 ≠ 0x3F800000 ∧
      jnextafterf 0 0 = 1 := by
  decide

/-- C3: when the magnitude bits of start are all zero, the result is
direction's sign bit ORed with 1: pattern 1 for a non-negative direction and
0x80000001 for a direction with the sign bit set. -/
theorem C3_theorem :
    ∀ x y, x < 0x100000000 → y < 0x100000000 → x &&& 0x7fffffff = 0 →
      jnextafterf x y = (y &&& 0x80000000) ||| 1 ∧
        (y < 0x80000000 → jnextafterf x y = 1) ∧
        (0x80000000 ≤ y → jnextafterf x y = 0x80000001) := by
  intro x y hx hy h0
  have hm : x % 0x80000000 = 0 := by
    rw [← and_mask31]
    exact h0
  have he := jnextafterf_eq hx hy
  rw [if_pos hm] at he
  refine ⟨?_, ?_, ?_⟩
  · rw [he, and_sign hy]
    by_cases hs : y < 0x80000000
    · rw [if_pos hs, if_pos hs]
      decide
    · rw [if_neg hs, if_neg hs]
      decide
  · intro hs
    rw [he, if_pos hs]
  · intro hs
    rw [he, if_neg (by omega)]

/-- C3 witness: instantiated at start `-0.0` (0x80000000) and direction
`-1.0f` (0xBF800000). -/
theorem C3_witness :
    jnextafterf 0x80000000 0xBF800000 = (0xBF800000 &&& 0x80000000) ||| 1 ∧
      ((0xBF800000 : Nat) < 0x80000000 → jnextafterf 0x80000000 0xBF800000 = 1) ∧
      ((0x80000000 : Nat) ≤ 0xBF800000 →
        jnextafterf 0x80000000 0xBF800000 = 0x80000001) :=
  C3_theorem 0x80000000 0xBF800000 (by norm_num) (by norm_num) (by decide)

/-- C4: at start `-1.0f` (0xBF800000) and direction `-2.0f` (0xC0000000) the
magnitude of start is strictly smaller than the magnitude of direction, yet
the branch test is false and the function decrements the pattern (moving
toward zero), contradicting the claim that the test computes
`|start| < |direction|` and that the pattern is incremented in that case. -/
theorem C4_code_eval :
    mag (magBits 0xBF800000) < mag (magBits 0xC0000000) ∧
      nextafterfTest 0xBF800000 0xC0000000 = false ∧
      jnextafterf 0xBF800000 0xC0000000 = 0xBF7FFFFF := by
  decide

/-- C5 counterexample: at `x = 1.0f`, `y = 2.0f` (same sign), negating both
arguments does not negate the result: `jnextafterf (-1.0f) (-2.0f)` is
0xBF7FFFFF while `-(jnextafterf 1.0f 2.0f)` is 0xBF800001. -/
theorem C5_counterexample :
    jnextafterf (flipSign 0x3F800000) (flipSign 0x40000000) ≠
      flipSign (jnextafterf 0x3F800000 0x40000000) := by
  decide

/-- C5 (amended): the symmetry `nextafterf(-x, -y) = -nextafterf(x, y)` holds
for finite nonzero `x`, `y` of OPPOSITE sign bits (it fails for same-sign
pairs, as the counterexample shows). -/
theorem C5_theorem :
    ∀ x y, x < 0x100000000 → y < 0x100000000 → isFinite x → isFinite y →
      magBits x ≠ 0 → magBits y ≠ 0 → signBit x ≠ signBit y →
      jnextafterf (flipSign x) (flipSign y) = flipSign (jnextafterf x y) := by
  intro x y hx hy _hfx _hfy hmx hmy hsxy
  exact nextafterf_flip hx hy hmx hmy hsxy

/-- C5 witness: the amended symmetry instantiated at `x = 1.0f`,
`y = -0.5f`. -/
theorem C5_witness :
    jnextafterf (flipSign 0x3F800000) (flipSign 0xBF000000) =
      flipSign (jnextafterf 0x3F800000 0xBF000000) :=
  C5_theorem 0x3F800000 0xBF000000 (by norm_num) (by norm_num) (by decide)
    (by decide) (by decide) (by decide) (by decide)

/-- C6: from any finite float32 `x`, one application of
`nextafterf (·) (+inf)` gives a strictly greater value with no representable
value strictly in between, and iterating it reaches the pattern of positive
infinity after finitely many steps. -/
theorem C6_theorem :
    ∀ x, x < 0x100000000 → isFinite x →
      floatLt x (stepUp x) ∧
        (∀ z, z < 0x100000000 → ¬isNan z →
          ¬(floatLt x z ∧ floatLt z (stepUp x))) ∧
        ∃ k, stepUp^[k] x = 0x7F800000 := by
  intro x hx hf
  have hs : stepUp x = jnextafterf x 0x7F800000 := rfl
  obtain ⟨h1, h2⟩ :=
    nextafterf_succ hx (by norm_num) hf (floatLt_posInf hx hf) (fun _ => by norm_num)
  rw [← hs] at h1 h2
  exact ⟨h1, h2, ⟨((0x7F800000 : ℤ) - nOrd x).toNat, climb _ x hx hf rfl⟩⟩

/-- C6 witness: instantiated at the largest finite float32 pattern
0x7F7FFFFF, whose upward step is `+inf` itself. -/
theorem C6_witness :
    floatLt 0x7F7FFFFF (stepUp 0x7F7FFFFF) ∧
      (∀ z, z < 0x100000000 → ¬isNan z →
        ¬(floatLt 0x7F7FFFFF z ∧ floatLt z (stepUp 0x7F7FFFFF))) ∧
      ∃ k, stepUp^[k] 0x7F7FFFFF = 0x7F800000 :=
  C6_theorem 0x7F7FFFFF (by norm_num) (by decide)

/-- C7: `nextafterf(+inf, +inf)` selects the increment branch and yields the
pattern 0x7F800001, a NaN; in general, whenever start is `+inf` and the test
selects the increment branch the result is 0x7F800001 — there is no clamping
at infinity. -/
theorem C7_theorem :
    nextafterfTest 0x7F800000 0x7F800000 = true ∧
      jnextafterf 0x7F800000 0x7F800000 = 0x7F800001 ∧
      isNan 0x7F800001 ∧
      ∀ y, y < 0x100000000 → nextafterfTest 0x7F800000 y = true →
        jnextafterf 0x7F800000 y = 0x7F800001 := by
  refine ⟨by decide, by decide, by decide, ?_⟩
  intro y hy ht
  rw [jnextafterf_eq (by norm_num) hy, if_neg (by norm_num), if_pos ht]

/-- C7 witness: the increment branch at start `+inf`, instantiated at the NaN
direction pattern 0x7FC00000. -/
theorem C7_witness :
    jnextafterf 0x7F800000 0x7FC00000 = 0x7F800001 :=
  C7_theorem.2.2.2 0x7FC00000 (by norm_num) (by decide)

/-- C8: `jnextafterf` is total on its 32-bit by 32-bit input domain: every
pair of valid patterns (NaN, infinity and subnormal inputs included) is
mapped to a valid 32-bit float pattern. -/
theorem C8_theorem :
    ∀ x y, x < 0x100000000 → y < 0x100000000 → jnextafterf x y < 0x100000000 := by
  intro x y hx hy
  rw [jnextafterf_eq hx hy]
  by_cases h0 : x % 0x80000000 = 0
  · rw [if_pos h0]
    split <;> norm_num
  · rw [if_neg h0]
    split
    · exact Nat.mod_lt _ (by norm_num)
    · omega

/-- C8 witness: totality at the all-ones NaN pattern paired with an arbitrary
pattern. -/
theorem C8_witness : jnextafterf 0xFFFFFFFF 0x12345678 < 0x100000000 :=
  C8_theorem 0xFFFFFFFF 0x12345678 (by norm_num) (by norm_num)

/-- C9: every double-precision wrapper returns exactly the value of the
corresponding external library function applied unchanged to its arguments;
in particular none of them performs any computation of its own, so the only
routine of this layer with its own (bit-manipulation) computation is the
single-precision next-representable-float routine. -/
theorem C9_theorem :
    ∀ (D : Type) (fsin fcos ftan fasin facos fatan fexp flog fsqrt ffloor
        fceil frint fsinh ftanh fcosh flog10 fcbrt fexpm1 flog1p : D → D)
      (frem fatan2 fpow fhypot fnext : D → D → D) (a b : D),
      jsin fsin a = fsin a ∧ jcos fcos a = fcos a ∧ jtan ftan a = ftan a ∧
      jasin fasin a = fasin a ∧ jacos facos a = facos a ∧
      jatan fatan a = fatan a ∧ jexp fexp a = fexp a ∧ jlog flog a = flog a ∧
      jsqrt2 fsqrt a = fsqrt a ∧ jieee_remainder frem a b = frem a b ∧
      jfloor ffloor a = ffloor a ∧ jceil fceil a = fceil a ∧
      jrint frint a = frint a ∧ jatan2 fatan2 a b = fatan2 a b ∧
      jpow fpow a b = fpow a b ∧ jsinh fsinh a = fsinh a ∧
      jtanh ftanh a = ftanh a ∧ jcosh fcosh a = fcosh a ∧
      jlog10 flog10 a = flog10 a ∧ jcbrt fcbrt a = fcbrt a ∧
      jexpm1 fexpm1 a = fexpm1 a ∧ jhypot fhypot a b = fhypot a b ∧
      jlog1p flog1p a = flog1p a ∧ jnextafter fnext a b = fnext a b := by
  intro D fsin fcos ftan fasin facos fatan fexp flog fsqrt ffloor fceil frint
    fsinh ftanh fcosh flog10 fcbrt fexpm1 flog1p frem fatan2 fpow fhypot fnext a b
  exact ⟨rfl, rfl, rfl, rfl, rfl, rfl, rfl, rfl, rfl, rfl, rfl, rfl, rfl, rfl,
    rfl, rfl, rfl, rfl, rfl, rfl, rfl, rfl, rfl, rfl⟩

/-- C10: NaN is not propagated: the NaN pattern 0x7F800001 with direction
`0.5f` yields the +infinity pattern 0x7F800000; in general any start with
nonzero magnitude bits yields start's pattern plus or minus exactly one,
modulo 2^32. -/
theorem C10_theorem :
    (isNan 0x7F800001 ∧ jnextafterf 0x7F800001 0x3F000000 = 0x7F800000 ∧
      isInf 0x7F800000 ∧ ¬isNan (jnextafterf 0x7F800001 0x3F000000)) ∧
    ∀ x y, x < 0x100000000 → y < 0x100000000 → x &&& 0x7fffffff ≠ 0 →
      jnextafterf x y = (x + 1) % 0x100000000 ∨
        jnextafterf x y = (x + 0x100000000 - 1) % 0x100000000 := by
  refine ⟨by decide, ?_⟩
  intro x y hx hy hm
  rw [and_mask31] at hm
  rw [jnextafterf_eq hx hy, if_neg hm]
  split
  · exact Or.inl rfl
  · right
    omega

/-- C10 witness: the plus-or-minus-one property instantiated at the patterns
2 and 5. -/
theorem C10_witness :
    jnextafterf 2 5 = (2 + 1) % 0x100000000 ∨
      jnextafterf 2 5 = (2 + 0x100000000 - 1) % 0x100000000 :=
  C10_theorem.2 2 5 (by norm_num) (by norm_num) (by decide)

end StrictMath
